import Mathlib

/-!
Verification of the docxml word-processing document library.

This file gives a shallow embedding of the core of the library — the
`Docx` assembly class, the `Break` component, the `XmlFile` part base
class, the `DotxTemplate` style accessor, and (modelled from the spec
where the source file is not available) the relationship graph — and
proves or refutes the spec claims about them.
-/

namespace Docxml

/-! ### MIME constants, from `src/enums.ts` (`FileMime`) -/

namespace FileMime

def rels : String := "application/vnd.openxmlformats-package.relationships+xml"

def xml : String := "application/xml"

def fontTable : String :=
  "application/vnd.openxmlformats-officedocument.wordprocessingml.fontTable+xml"

def webSettings : String :=
  "application/vnd.openxmlformats-officedocument.wordprocessingml.webSettings+xml"

def extendedProperties : String :=
  "application/vnd.openxmlformats-officedocument.extended-properties+xml"

def mainDocument : String :=
  "application/vnd.openxmlformats-officedocument.wordprocessingml.document.main+xml"

def styles : String :=
  "application/vnd.openxmlformats-officedocument.wordprocessingml.styles+xml"

def png : String := "image/png"

end FileMime

/-! ### The `Break` component, from `src/components/Break.ts`

`BreakProps` has two optional string-valued fields (`type` and `clear`;
the TypeScript type restricts them to small string-literal unions, but at
runtime they are strings).  `toNode` builds one `w:br` element carrying a
`w:type` attribute when `props.type || null` is non-null (JavaScript `||`
turns the empty string into `null`) and likewise `w:clear`.  `fromNode`
reads the two attributes back; an absent attribute yields a null entry in
the XPath map, modelled as `none`.  A `Break` accepts no children
(`BreakChild = never`), so a node is fully described by its props. -/

/-- An XML element as produced by `create`: a name plus attributes.
Qualified attribute names (`QNS.w`) are abstracted to their prefixed
serialization (`w:type`, `w:clear`). -/
structure XmlElem where
  name : String
  attrs : List (String × String)
deriving DecidableEq, Repr

/-- Props of the `Break` component (`BreakProps` in `src/components/Break.ts`);
`none` stands for an absent / `null` / `undefined` field. -/
structure BreakProps where
  type : Option String
  clear : Option String
deriving DecidableEq, Repr

/-- JavaScript `x || null` on an optional string: the empty string is falsy
and becomes `null`. -/
def jsOrNull : Option String → Option String
  | some s => if s = "" then none else some s
  | none => none

/-- Attribute lookup on an element: the value of the first attribute with
the given name, `none` when absent. -/
def getAttr (name : String) : List (String × String) → Option String
  | [] => none
  | (k, v) :: rest => if k = name then some v else getAttr name rest

namespace Break

/-- `Break#toNode`: one `w:br` element with a `w:type` attribute if
`this.props.type || null` exists and a `w:clear` attribute if
`this.props.clear || null` exists. -/
def toNode (props : BreakProps) : XmlElem :=
  { name := "w:br"
    attrs :=
      (match jsOrNull props.type with
        | some t => [("w:type", t)]
        | none => []) ++
      (match jsOrNull props.clear with
        | some c => [("w:clear", c)]
        | none => []) }

/-- `Break.matchesNode`: the node name is `w:br`. -/
def matchesNode (node : XmlElem) : Bool :=
  node.name == "w:br"

/-- `Break.fromNode`: reads the `w:type` and `w:clear` attributes into a new
props record; an absent attribute becomes `none` (the XPath `string()` of an
empty sequence yields a null map entry). -/
def fromNode (node : XmlElem) : BreakProps :=
  { type := getAttr "w:type" node.attrs
    clear := getAttr "w:clear" node.attrs }

end Break

/-! ### Rule-engine output flattening, from `src/Docx.ts` (`Docx#fromXml`)

`RuleResult = Component | string | null | Array<RuleResult>` is the type a
transformation rule may return.  `fromXml` reduces the rendered value to a
`Component[]` with the inner `flatten` reducer:

    if (child === null || typeof child === 'string') return flat;
    if (Array.isArray(child)) return [...flat, ...child.reduce(flatten, [])];
    flat.push(child); return flat;

The component type is kept as a type parameter `α`. -/

/-- The `RuleResult` union from `src/Docx.ts`. -/
inductive RuleResult (α : Type) where
  | comp (c : α)
  | text (s : String)
  | null
  | arr (children : List (RuleResult α))
deriving Repr

mutual

/-- The `flatten` reducer inside `Docx#fromXml`: `null` and strings are
skipped, arrays are reduced recursively from a fresh empty accumulator and
appended, components are appended. -/
def flatten {α : Type} (flat : List α) : RuleResult α → List α
  | .null => flat
  | .text _ => flat
  | .comp c => flat ++ [c]
  | .arr cs => flat ++ flattenList cs []

/-- `Array#reduce(flatten, [])` over a list of rule results. -/
def flattenList {α : Type} : List (RuleResult α) → List α → List α
  | [], acc => acc
  | c :: cs, acc => flattenList cs (flatten acc c)

end

/-- The whole reduction in `Docx#fromXml`:
`(Array.isArray(ast) ? ast : [ast]).reduce(flatten, [])`. -/
def fromXmlChildren {α : Type} : RuleResult α → List α
  | .arr cs => flattenList cs []
  | r => flatten [] r

mutual

/-- The component leaves of a rule result, in document order — the
specification-level description of what flattening keeps. -/
def compLeaves {α : Type} : RuleResult α → List α
  | .null => []
  | .text _ => []
  | .comp c => [c]
  | .arr cs => compLeavesList cs

/-- Component leaves of a list of rule results, concatenated in order. -/
def compLeavesList {α : Type} : List (RuleResult α) → List α
  | [] => []
  | c :: cs => compLeaves c ++ compLeavesList cs

end

/-! ### Top-level build, from `src/Docx.ts` (`Docx.fromJsx` / `Docx#fromXml`)

`fromJsx(roots)` throws unless `roots.length === 1`, with a message naming
the count found; otherwise it builds an empty bundle and replaces the
document body with the single root (`bundle.document.set(roots[0])`).

`fromXml(xml, props)` throws when no transformation rule is registered
(`!this._renderer.length`); otherwise it renders the input through the
external `GenericRenderer` (kept as a function parameter `render` here,
since that collaborator is an external import) and installs the flattened
result as the document body.  Both are modelled state-passing: a result of
`Except.error` pairs with the unchanged state. -/

/-- Document state relevant to building: the registered transformation
rules (abstract, only their number matters to the guard) and the children
of the office document body. -/
structure DocxState (ρ : Type) (α : Type) where
  rules : List ρ
  body : List α
deriving Repr

/-- The error text thrown by `Docx.fromJsx` for a root count other than 1. -/
def rootCountError (n : Nat) : String :=
  "Found " ++ toString n ++
    " root elements, but exactly 1 expected. This may be caused by invalid nesting that could not be repaired."

/-- `Docx.fromJsx`: fails unless the forest has exactly one root, in which
case a fresh bundle is created and its body set to that root (with
`roots.length = 1`, `roots` is exactly `[roots[0]]`). -/
def fromJsx {ρ α : Type} (roots : List α) : Except String (DocxState ρ α) :=
  if roots.length ≠ 1 then
    .error (rootCountError roots.length)
  else
    .ok { rules := [], body := roots }

/-- The error text thrown by `Docx#fromXml` when no rule is registered. -/
def noRulesError : String :=
  "No XML transformation rules were configured, creating a DOCX from XML is therefore not possible."

/-- `Docx#fromXml`: throws `noRulesError` when `this._renderer.length` is
zero, leaving the state untouched; otherwise renders the XML with the rule
set and replaces the body by the flattened result. -/
def fromXml {ρ α : Type} (render : List ρ → String → RuleResult α)
    (d : DocxState ρ α) (xml : String) : Except String Unit × DocxState ρ α :=
  if d.rules.length = 0 then
    (.error noRulesError, d)
  else
    (.ok (), { d with body := fromXmlChildren (render d.rules xml) })

/-! ### Relationship graph, get-or-create and the `document` getter

The `Relationships` class itself is not among the available source files;
its operations are modelled from the spec.  The caller side
(`Docx#document`, `Docx`'s constructor) is from `src/Docx.ts`. -/

/-- A relationship edge `{ id, type, target }`; the target Part is kept
abstract in `τ`. -/
structure Edge (τ : Type) where
  id : String
  type : String
  target : τ
deriving DecidableEq, Repr

/-- Modelled from the spec: `add(type, part)` appends a new edge with a
freshly minted ID unique within the owning edge set. -/
def addEdge {τ : Type} (edges : List (Edge τ)) (t : String) (target : τ) :
    Edge τ × List (Edge τ) :=
  let e : Edge τ := { id := "rId" ++ toString (edges.length + 1), type := t, target := target }
  (e, edges ++ [e])

/-- Modelled from the spec: `ensureRelationship(type, factory)` returns the
first edge of the given type if one exists, otherwise creates one via
`factory()` and returns it. -/
def ensureRelationship {τ : Type} (edges : List (Edge τ)) (t : String)
    (factory : Unit → τ) : Edge τ × List (Edge τ) :=
  match edges.find? (fun e => e.type == t) with
  | some e => (e, edges)
  | none => addEdge edges t (factory ())

/-- Modelled from the spec: `hasType(type)` is a pure existence check. -/
def hasType {τ : Type} (edges : List (Edge τ)) (t : String) : Bool :=
  (edges.find? (fun e => e.type == t)).isSome

/-- The relationship type tag for the main document
(`RelationshipType.officeDocument`). -/
def officeDocumentType : String := "officeDocument"

/-- The part of a `Docx` instance involved in the `document` getter: the
top-level relationship edges and the lazily cached `_officeDocument`. -/
structure DocxRels (τ : Type) where
  relationships : List (Edge τ)
  officeDocumentCache : Option τ
deriving Repr

/-- The `Docx` constructor from `src/Docx.ts`: when no `officeDocument`
relationship exists yet, one is added pointing at a fresh main-document
part; the `_officeDocument` cache starts out null. -/
def docxNew {τ : Type} (edges : List (Edge τ)) (mkOfficeDocument : Unit → τ) :
    DocxRels τ :=
  { relationships :=
      if hasType edges officeDocumentType then edges
      else (addEdge edges officeDocumentType (mkOfficeDocument ())).2
    officeDocumentCache := none }

/-- The `Docx#document` getter from `src/Docx.ts`: when `_officeDocument`
is unset, it is filled from
`relationships.ensureRelationship(officeDocument, factory)` and cached;
the cached instance is returned thereafter. -/
def documentGet {τ : Type} (d : DocxRels τ) (factory : Unit → τ) :
    τ × DocxRels τ :=
  match d.officeDocumentCache with
  | some o => (o, d)
  | none =>
      let (e, rels) := ensureRelationship d.relationships officeDocumentType factory
      (e.target, { relationships := rels, officeDocumentCache := some e.target })

/-! ### The side-effecting pre-pass and archive assembly, from
`src/Docx.ts` (`Docx#toArchive`)

`toArchive` first walks `this.document.children` with the inner `walk`
function — strings are skipped; a component whose `props.style` is truthy
has its style ensured in the style registry; an `Image` component has its
relationship edge ensured; then the walk recurses into the children — and
only afterwards serializes the relationship graph and collects the
content-type overrides for every related part that is not itself a
`Relationships` file.

`Styles.ensureStyle`, `Image#ensureRelationship` and
`Relationships#getRelated` live in source files that are not available;
they are modelled from the spec. -/

/-- A node of the component tree as seen by the `toArchive` walk: either a
raw string child or a component carrying an optional `style` prop, an
optional image identity (set exactly when the component is an `Image`) and
a list of children. -/
inductive DocComp where
  | text (s : String)
  | node (style : Option String) (image : Option String) (children : List DocComp)
deriving Repr

/-- The walk state: the style-name registry of `document.styles` and the
image relationship edges of `document.relationships`. -/
structure WalkState where
  styles : List String
  imageRels : List String
deriving DecidableEq, Repr

/-- Modelled from the spec: `Styles#ensureStyle` makes sure the style name
exists in the registry, creating a default entry if needed. -/
def ensureStyle (reg : List String) (s : String) : List String :=
  if s ∈ reg then reg else reg ++ [s]

/-- Modelled from the spec: `Image#ensureRelationship` makes sure the
relationship edge for this image exists. -/
def ensureImageRel (rels : List String) (img : String) : List String :=
  if img ∈ rels then rels else rels ++ [img]

/-- What the `walk` function does at one node, without the recursion:
skip strings; ensure a truthy (non-empty) `style` prop; ensure the
relationship of an `Image`. -/
def walkStep (st : WalkState) : DocComp → WalkState
  | .text _ => st
  | .node style image _ =>
      let st1 :=
        match style with
        | some s => if s ≠ "" then { st with styles := ensureStyle st.styles s } else st
        | none => st
      match image with
      | some i => { st1 with imageRels := ensureImageRel st1.imageRels i }
      | none => st1

mutual

/-- The inner `walk` of `Docx#toArchive`: process the node, then
`component.children.forEach(walk)`. -/
def walkComp (st : WalkState) : DocComp → WalkState
  | .text _ => st
  | .node style image children =>
      walkCompList (walkStep st (.node style image children)) children

/-- `children.forEach(walk)` over a list of components. -/
def walkCompList (st : WalkState) : List DocComp → WalkState
  | [] => st
  | c :: cs => walkCompList (walkComp st c) cs

end

mutual

/-- Depth-first pre-order enumeration of a component subtree. -/
def preorder : DocComp → List DocComp
  | .text s => [.text s]
  | .node style image children => .node style image children :: preorderList children

/-- Depth-first pre-order enumeration of a forest. -/
def preorderList : List DocComp → List DocComp
  | [] => []
  | c :: cs => preorder c ++ preorderList cs

end

/-- The `style` prop of a component node (`none` on raw strings). -/
def styleProp : DocComp → Option String
  | .text _ => none
  | .node style _ _ => style

/-- The image identity of a component node (`none` on raw strings and on
components that are not an `Image`). -/
def imageProp : DocComp → Option String
  | .text _ => none
  | .node _ image _ => image

/-- A related part as enumerated by `relationships.getRelated()`: its
archive location, its MIME content type, and whether it is itself a
`Relationships` index file. -/
structure PartInfo where
  location : String
  contentType : String
  isRelationships : Bool
deriving DecidableEq, Repr

/-- Modelled from the spec: the flattened list of parts reachable from the
top-level relationships after the pre-pass — the relationship index files,
the main document, the styles part, and one media part per image
relationship edge. -/
def getRelatedParts (st : WalkState) : List PartInfo :=
  [ { location := "_rels/.rels", contentType := FileMime.rels, isRelationships := true },
    { location := "word/document.xml", contentType := FileMime.mainDocument,
      isRelationships := false },
    { location := "word/_rels/document.xml.rels", contentType := FileMime.rels,
      isRelationships := true },
    { location := "word/styles.xml", contentType := FileMime.styles,
      isRelationships := false } ] ++
  st.imageRels.map (fun i =>
    { location := "word/media/" ++ i, contentType := FileMime.png, isRelationships := false })

/-- Document state relevant to `Docx#toArchive`. -/
structure DocxDoc where
  body : List DocComp
  styles : List String
  imageRels : List String
  overrides : List (String × String)
deriving Repr

/-- The produced archive, observationally: the style registry and the
image relationship edges as serialized (their state when the relationship
graph is written), the enumerated related parts, and the content-type
overrides registered by the end of the call. -/
structure ArchiveOut where
  serializedStyles : List String
  serializedRels : List String
  relatedParts : List PartInfo
  overrides : List (String × String)
deriving Repr

/-- `Docx#toArchive`: the pre-pass walk runs first; the relationship graph
(and with it the styles part) is serialized from the post-walk state; then
every related part that is not a `Relationships` file gets a content-type
override `(location, contentType)` registered. -/
def toArchive (d : DocxDoc) : ArchiveOut :=
  let st := walkCompList { styles := d.styles, imageRels := d.imageRels } d.body
  let related := getRelatedParts st
  { serializedStyles := st.styles
    serializedRels := st.imageRels
    relatedParts := related
    overrides := d.overrides ++
      ((related.filter (fun p => !p.isRelationships)).map
        (fun p => (p.location, p.contentType))) }

/-! ### The `XmlFile` part base class, from the second half of
`src/components/Break.ts`

`getRelated()` returns the part itself; subclasses extend it with the
recursive closure of their related parts (spec: "the Part itself plus,
recursively, every Part reachable by relationship edges").  `isEmpty()` is
an overridable predicate (the base class returns `false`).
`addToArchive(archive)` maps over `getRelated()` and writes each member
(`archive.addXmlFile(related.location, await related.toNode())`); the
serialized `toNode` output is modelled as a stored `content` string. -/

/-- A part: location, serialized content, the `isEmpty()` answer of its
class, and the parts its relationship edges point at. -/
inductive APart where
  | mk (location : String) (content : String) (empty : Bool) (related : List APart)
deriving Repr

/-- Location accessor. -/
def APart.location : APart → String
  | .mk l _ _ _ => l

/-- Serialized `toNode` content accessor. -/
def APart.content : APart → String
  | .mk _ c _ _ => c

/-- The overridable `isEmpty()` predicate. -/
def APart.isEmpty : APart → Bool
  | .mk _ _ e _ => e

mutual

/-- `getRelated()`: the part itself plus, recursively, every part
reachable through its relationship edges. -/
def APart.getRelated : APart → List APart
  | .mk l c e rel => .mk l c e rel :: APart.getRelatedList rel

/-- The concatenated `getRelated()` closures of a list of parts. -/
def APart.getRelatedList : List APart → List APart
  | [] => []
  | p :: ps => APart.getRelated p ++ APart.getRelatedList ps

end

/-- An archive as a mapping from entry path to written content. -/
def Archive : Type := String → Option String

/-- The empty archive. -/
def Archive.empty : Archive := fun _ => none

/-- `archive.addXmlFile(path, node)`: write (or overwrite) one entry. -/
def Archive.setEntry (a : Archive) (k v : String) : Archive :=
  fun q => if q = k then some v else a q

/-- Writing a sequence of `(path, content)` entries in order. -/
def Archive.writeAll (entries : List (String × String)) (a : Archive) : Archive :=
  entries.foldl (fun a e => Archive.setEntry a e.1 e.2) a

/-- The write sequence `addToArchive` issues: one entry per member of
`getRelated()`, in order. -/
def APart.writes (p : APart) : List (String × String) :=
  p.getRelated.map (fun q => (q.location, q.content))

/-- `XmlFile#addToArchive`: every member of `getRelated()` is written to
the archive. -/
def APart.addToArchive (p : APart) (a : Archive) : Archive :=
  Archive.writeAll p.writes a

/-! ### Instance content types, from the second half of
`src/components/Break.ts` and `src/unnamed/part_001`

`XmlFile` declares `static readonly contentType = FileMime.xml` and an
instance getter returning `(this.constructor as typeof XmlFile).contentType`,
so the instance getter dispatches to the static field of the concrete
class.  `UnhandledXmlFile` declares no override; `FontTable` (and the
`wip` files `WebSettings`, `ExtendedProperties`) override the static. -/

/-- The concrete classes of the `XmlFile` hierarchy present in the
available sources. -/
inductive XmlClass where
  | xmlFile
  | unhandledXmlFile
  | fontTable
  | webSettings
  | extendedProperties
deriving DecidableEq, Repr

/-- The static `contentType` of each class: `FontTable`, `WebSettings` and
`ExtendedProperties` declare overrides; `XmlFile` declares the
`application/xml` default and `UnhandledXmlFile` inherits it. -/
def XmlClass.staticContentType : XmlClass → String
  | .fontTable => FileMime.fontTable
  | .webSettings => FileMime.webSettings
  | .extendedProperties => FileMime.extendedProperties
  | .xmlFile => FileMime.xml
  | .unhandledXmlFile => FileMime.xml

/-- An `XmlFile` instance: its concrete class and its constructor
arguments (`location`, and the raw text for the `UnhandledXmlFile`
subclasses).  No content type is stored on the instance. -/
structure XmlFileInst where
  cls : XmlClass
  location : String
  xml : String
deriving DecidableEq, Repr

/-- The instance `contentType` getter:
`(this.constructor as typeof XmlFile).contentType`. -/
def XmlFileInst.contentType (f : XmlFileInst) : String :=
  f.cls.staticContentType

/-! ### `DotxTemplate#style`, from `src/unnamed/part_000`

`style(name)` throws `DXE010` when `init()` has not populated
`availableStyleNames`, throws `DXE011` (listing the available names) when
`name` is not among them, and otherwise returns the memoized `DotxStyle`
for the name, creating and storing one on first use.  A `DotxStyle` is a
record holding just its name, modelled as the name itself. -/

/-- The state of a `DotxTemplate`: the style names read by `init` (null
before `init` completes) and the memoized `styles` map. -/
structure DotxTemplate where
  availableStyleNames : Option (List String)
  styles : List (String × String)
deriving DecidableEq, Repr

/-- The `DXE010` message thrown when `init` has not run. -/
def dxe010 : String := "DXE010:Cannot use styles without calling `init` first."

/-- The `DXE011` message thrown for an unavailable style name. -/
def dxe011 (name : String) (avail : List String) : String :=
  "DXE011:Style \"" ++ name ++
    "\" is not available in this template. The only available style names are: " ++
    String.intercalate ", " avail

/-- `DotxTemplate#style`, state-passing: an `Except.error` result pairs
with the unchanged template state. -/
def DotxTemplate.style (t : DotxTemplate) (name : String) :
    Except String String × DotxTemplate :=
  match t.availableStyleNames with
  | none => (.error dxe010, t)
  | some avail =>
      if ¬ name ∈ avail then
        (.error (dxe011 name avail), t)
      else
        match t.styles.lookup name with
        | some s => (.ok s, t)
        | none => (.ok name, { t with styles := t.styles ++ [(name, name)] })

/-! ### Theorems -/

/-- C1: for a `Break` component node built programmatically (its optional
props, when present, are non-empty strings, as the `BreakProps` literal
types guarantee), decoding the XML element produced by encoding the node
reproduces an equivalent node: `matchesNode` accepts the element (same
component type), and `fromNode` returns equal props; a `Break` admits no
children, so the children (none) are equal as well. -/
theorem break_decode_encode (p : BreakProps)
    (ht : p.type ≠ some "") (hc : p.clear ≠ some "") :
    Break.matchesNode (Break.toNode p) = true ∧
    Break.fromNode (Break.toNode p) = p := by
  obtain ⟨ty, cl⟩ := p
  refine ⟨rfl, ?_⟩
  cases ty with
  | none =>
    cases cl with
    | none => rfl
    | some c =>
      have hc' : c ≠ "" := fun h => hc (by rw [h])
      simp [Break.toNode, Break.fromNode, jsOrNull, getAttr, hc']
  | some t =>
    have ht' : t ≠ "" := fun h => ht (by rw [h])
    cases cl with
    | none => simp [Break.toNode, Break.fromNode, jsOrNull, getAttr, ht']
    | some c =>
      have hc' : c ≠ "" := fun h => hc (by rw [h])
      simp [Break.toNode, Break.fromNode, jsOrNull, getAttr, ht', hc']

/-- Witness for C1 at the concrete node `⟨page, left⟩`. -/
theorem break_decode_encode_witness :
    Break.matchesNode (Break.toNode { type := some "page", clear := some "left" }) = true ∧
    Break.fromNode (Break.toNode { type := some "page", clear := some "left" }) =
      { type := some "page", clear := some "left" } :=
  break_decode_encode { type := some "page", clear := some "left" } (by decide) (by decide)

mutual

/-- The `flatten` reducer appends exactly the component leaves of its
argument to the accumulator. -/
theorem flatten_eq {α : Type} (flat : List α) (r : RuleResult α) :
    flatten flat r = flat ++ compLeaves r := by
  cases r with
  | comp c => simp [flatten, compLeaves]
  | text s => simp [flatten, compLeaves]
  | null => simp [flatten, compLeaves]
  | arr cs => rw [flatten, compLeaves, flattenList_eq]; simp

/-- The list form of `flatten_eq`. -/
theorem flattenList_eq {α : Type} (cs : List (RuleResult α)) (acc : List α) :
    flattenList cs acc = acc ++ compLeavesList cs := by
  cases cs with
  | nil => simp [flattenList, compLeavesList]
  | cons c cs => rw [flattenList, flattenList_eq, flatten_eq, compLeavesList]; simp

end

/-- Component leaves of a list concatenate leaves of its members. -/
theorem compLeavesList_eq_join {α : Type} (cs : List (RuleResult α)) :
    compLeavesList cs = (cs.map compLeaves).flatten := by
  induction cs with
  | nil => rfl
  | cons c cs ih => simp [compLeavesList, ih]

/-- C2 is false as stated: the flattening in `Docx#fromXml` drops plain
text strings along with `null`, so the rule result
`[null, "a", [["b"], null, "c"]]` flattens to the empty sequence, not to
the three-element sequence `["a", "b", "c"]`. -/
theorem fromXml_flatten_counterexample :
    fromXmlChildren (α := String)
      (.arr [.null, .text "a", .arr [.arr [.text "b"], .null, .text "c"]]) = [] ∧
    ([] : List String) ≠ ["a", "b", "c"] := by
  refine ⟨?_, by decide⟩
  simp [fromXmlChildren, flattenList, flatten]

/-- C2 (amended): `Docx#fromXml` reduces an arbitrarily nested rule-engine
result to a flat ordered sequence of Component values before tree
assembly — `null` entries and plain text strings are both dropped, nested
arrays are spliced in place, and the order of the remaining component
nodes is preserved. -/
theorem fromXml_flatten_amended {α : Type} (ast : RuleResult α) :
    fromXmlChildren ast = compLeaves ast ∧
    (∀ cs : List (RuleResult α), fromXmlChildren (RuleResult.arr cs) = (cs.map compLeaves).flatten) ∧
    fromXmlChildren (RuleResult.null : RuleResult α) = [] ∧
    (∀ s : String, fromXmlChildren (RuleResult.text s : RuleResult α) = []) ∧
    (∀ c : α, fromXmlChildren (RuleResult.comp c) = [c]) := by
  refine ⟨?_, ?_, ?_, ?_, ?_⟩
  · cases ast <;> simp [fromXmlChildren, flatten_eq, flattenList_eq, compLeaves]
  · intro cs
    simp [fromXmlChildren, flattenList_eq, compLeavesList_eq_join]
  · simp [fromXmlChildren, flatten_eq, compLeaves]
  · intro s
    simp [fromXmlChildren, flatten_eq, compLeaves]
  · intro c
    simp [fromXmlChildren, flatten_eq, compLeaves]

/-- C3: a top-level build succeeds exactly when the forest has one root —
that root becomes the document body — and for any other count it fails
with a structural error naming the count of roots found, constructing no
document. -/
theorem fromJsx_root_count {α : Type} (roots : List α) :
    (∀ r, roots = [r] → fromJsx (ρ := Unit) roots = .ok { rules := [], body := [r] }) ∧
    (roots.length ≠ 1 →
      fromJsx (ρ := Unit) roots =
        .error ("Found " ++ toString roots.length ++
          " root elements, but exactly 1 expected. This may be caused by invalid nesting that could not be repaired.")) := by
  constructor
  · intro r h
    subst h
    simp [fromJsx]
  · intro h
    simp [fromJsx, h, rootCountError]

/-- Witness for C3: one root succeeds; zero roots fail naming the count 0. -/
theorem fromJsx_root_count_witness :
    fromJsx (ρ := Unit) [()] = .ok { rules := [], body := [()] } ∧
    fromJsx (ρ := Unit) ([] : List Unit) =
      .error ("Found " ++ toString (0 : Nat) ++
        " root elements, but exactly 1 expected. This may be caused by invalid nesting that could not be repaired.") :=
  ⟨(fromJsx_root_count [()]).1 () rfl, (fromJsx_root_count ([] : List Unit)).2 (by decide)⟩

/-- C4: calling `fromXml` on a `Docx` with zero registered transformation
rules returns the fatal configuration error and leaves the document state
— in particular the body — unchanged, for every render function and every
XML input; it is never a silent no-op. -/
theorem fromXml_no_rules {ρ α : Type} (render : List ρ → String → RuleResult α)
    (d : DocxState ρ α) (xml : String) (h : d.rules = []) :
    fromXml render d xml =
      (.error "No XML transformation rules were configured, creating a DOCX from XML is therefore not possible.",
        d) := by
  simp [fromXml, h, noRulesError]

/-- Witness for C4 at a concrete rule-less document state. -/
theorem fromXml_no_rules_witness :
    fromXml (fun (_ : List Unit) (_ : String) => (RuleResult.null : RuleResult Unit))
      { rules := [], body := [] } "<p/>" =
      (.error "No XML transformation rules were configured, creating a DOCX from XML is therefore not possible.",
        { rules := [], body := [] }) :=
  fromXml_no_rules _ _ _ rfl

/-- C5: `ensureRelationship` is an idempotent get-or-create — it returns
the first existing edge of the given type unchanged when one exists, a
second call with the same type returns the same edge and the same graph
whatever factory it is given (so the factory is invoked at most once) —
and consequently the `document` getter of a `Docx` caches and always
returns the same office-document instance, and a fresh `Docx` carries
exactly one `officeDocument` edge before and after using the getter. -/
theorem ensureRelationship_idempotent {τ : Type} (edges : List (Edge τ)) (t : String)
    (f f2 : Unit → τ) (d : DocxRels τ) (mk mk2 mk3 : Unit → τ) :
    (∀ e, edges.find? (fun e => e.type == t) = some e →
      ensureRelationship edges t f = (e, edges)) ∧
    (ensureRelationship (ensureRelationship edges t f).2 t f2 =
      ((ensureRelationship edges t f).1, (ensureRelationship edges t f).2)) ∧
    (documentGet (documentGet d mk).2 mk2 =
      ((documentGet d mk).1, (documentGet d mk).2)) ∧
    (((docxNew ([] : List (Edge τ)) mk3).relationships.filter
        (fun e => e.type == officeDocumentType)).length = 1 ∧
      ((documentGet (docxNew ([] : List (Edge τ)) mk3) mk2).2.relationships.filter
        (fun e => e.type == officeDocumentType)).length = 1) := by
  refine ⟨?_, ?_, ?_, ?_⟩
  · intro e h
    simp [ensureRelationship, h]
  · match hf : edges.find? (fun e => e.type == t) with
    | some e =>
      simp [ensureRelationship, hf]
    | none =>
      simp only [ensureRelationship, hf, addEdge]
      rw [List.find?_append, hf]
      simp
  · match hc : d.officeDocumentCache with
    | some o => simp [documentGet, hc]
    | none =>
      simp only [documentGet, hc]
  · constructor
    · simp [docxNew, hasType, addEdge, officeDocumentType]
    · simp [docxNew, hasType, addEdge, officeDocumentType, documentGet, ensureRelationship]

/-- Witness for C5: a graph already holding an `officeDocument` edge is
returned unchanged together with that edge. -/
theorem ensureRelationship_idempotent_witness :
    ensureRelationship [(⟨"rId1", "officeDocument", 7⟩ : Edge Nat)] "officeDocument"
      (fun _ => 9) = (⟨"rId1", "officeDocument", 7⟩, [⟨"rId1", "officeDocument", 7⟩]) :=
  (ensureRelationship_idempotent [(⟨"rId1", "officeDocument", 7⟩ : Edge Nat)]
      "officeDocument" (fun _ => 9) (fun _ => 9) ⟨[], none⟩ (fun _ => 0) (fun _ => 0)
      (fun _ => 0)).1
    ⟨"rId1", "officeDocument", 7⟩ (by decide)

/-- Membership in a style registry survives `ensureStyle`. -/
theorem ensureStyle_mono (reg : List String) (x s : String) (h : s ∈ reg) :
    s ∈ ensureStyle reg x := by
  unfold ensureStyle
  split
  · exact h
  · exact List.mem_append_left _ h

/-- After `ensureStyle reg x` the style `x` is registered. -/
theorem ensureStyle_self (reg : List String) (x : String) : x ∈ ensureStyle reg x := by
  unfold ensureStyle
  split
  · assumption
  · exact List.mem_append_right _ (by simp)

/-- Membership in the image edge set survives `ensureImageRel`. -/
theorem ensureImageRel_mono (rels : List String) (x i : String) (h : i ∈ rels) :
    i ∈ ensureImageRel rels x := by
  unfold ensureImageRel
  split
  · exact h
  · exact List.mem_append_left _ h

/-- After `ensureImageRel rels x` the edge for `x` exists. -/
theorem ensureImageRel_self (rels : List String) (x : String) : x ∈ ensureImageRel rels x := by
  unfold ensureImageRel
  split
  · assumption
  · exact List.mem_append_right _ (by simp)

/-- A registered style survives one walk step. -/
theorem walkStep_styles_mono (st : WalkState) (c : DocComp) (s : String)
    (h : s ∈ st.styles) : s ∈ (walkStep st c).styles := by
  cases c with
  | text t => exact h
  | node sty img ch =>
      cases img <;> cases sty <;> simp only [walkStep] <;> (try split) <;>
        first
          | exact h
          | exact ensureStyle_mono _ _ _ h

/-- An image edge survives one walk step. -/
theorem walkStep_rels_mono (st : WalkState) (c : DocComp) (i : String)
    (h : i ∈ st.imageRels) : i ∈ (walkStep st c).imageRels := by
  cases c with
  | text t => exact h
  | node sty img ch =>
      cases img <;> cases sty <;> simp only [walkStep] <;> (try split) <;>
        first
          | exact h
          | exact ensureImageRel_mono _ _ _ h

/-- One walk step registers the truthy style prop of the visited node. -/
theorem walkStep_styles_complete (st : WalkState) (c : DocComp) (s : String)
    (hs : styleProp c = some s) (hne : s ≠ "") : s ∈ (walkStep st c).styles := by
  cases c with
  | text t => exact absurd hs (by simp [styleProp])
  | node sty img ch =>
      cases sty with
      | none => exact absurd hs (by simp [styleProp])
      | some x =>
          have hx : x = s := by simpa [styleProp] using hs
          subst hx
          cases img <;> simp only [walkStep, if_pos hne] <;> exact ensureStyle_self _ _

/-- One walk step ensures the relationship edge of a visited `Image`. -/
theorem walkStep_rels_complete (st : WalkState) (c : DocComp) (i : String)
    (hi : imageProp c = some i) : i ∈ (walkStep st c).imageRels := by
  cases c with
  | text t => exact absurd hi (by simp [imageProp])
  | node sty img ch =>
      cases img with
      | none => exact absurd hi (by simp [imageProp])
      | some x =>
          have hx : x = i := by simpa [imageProp] using hi
          subst hx
          cases sty <;> simp only [walkStep] <;> (try split) <;>
            exact ensureImageRel_self _ _

mutual

/-- A registered style survives the recursive walk of one component. -/
theorem walkComp_styles_mono (st : WalkState) (c : DocComp) (s : String)
    (h : s ∈ st.styles) : s ∈ (walkComp st c).styles := by
  cases c with
  | text t => exact h
  | node sty img ch =>
      rw [walkComp]
      exact walkCompList_styles_mono _ ch s (walkStep_styles_mono st _ s h)

/-- A registered style survives the walk of a component list. -/
theorem walkCompList_styles_mono (st : WalkState) (cs : List DocComp) (s : String)
    (h : s ∈ st.styles) : s ∈ (walkCompList st cs).styles := by
  cases cs with
  | nil => exact h
  | cons c cs =>
      rw [walkCompList]
      exact walkCompList_styles_mono _ cs s (walkComp_styles_mono st c s h)

end

mutual

/-- An image edge survives the recursive walk of one component. -/
theorem walkComp_rels_mono (st : WalkState) (c : DocComp) (i : String)
    (h : i ∈ st.imageRels) : i ∈ (walkComp st c).imageRels := by
  cases c with
  | text t => exact h
  | node sty img ch =>
      rw [walkComp]
      exact walkCompList_rels_mono _ ch i (walkStep_rels_mono st _ i h)

/-- An image edge survives the walk of a component list. -/
theorem walkCompList_rels_mono (st : WalkState) (cs : List DocComp) (i : String)
    (h : i ∈ st.imageRels) : i ∈ (walkCompList st cs).imageRels := by
  cases cs with
  | nil => exact h
  | cons c cs =>
      rw [walkCompList]
      exact walkCompList_rels_mono _ cs i (walkComp_rels_mono st c i h)

end

mutual

/-- Every truthy style prop in the subtree of `c` is registered once the
walk of `c` completes. -/
theorem walkComp_styles_complete (st : WalkState) (c : DocComp) (x : DocComp)
    (s : String) (hmem : x ∈ preorder c) (hs : styleProp x = some s) (hne : s ≠ "") :
    s ∈ (walkComp st c).styles := by
  cases c with
  | text t =>
      rw [preorder] at hmem
      rw [List.mem_singleton] at hmem
      subst hmem
      exact absurd hs (by simp [styleProp])
  | node sty img ch =>
      rw [preorder] at hmem
      rw [walkComp]
      rcases List.mem_cons.mp hmem with hx | hx
      · subst hx
        exact walkCompList_styles_mono _ ch s (walkStep_styles_complete st _ s hs hne)
      · exact walkCompList_styles_complete _ ch x s hx hs hne

/-- Every truthy style prop in a forest is registered once the walk of the
forest completes. -/
theorem walkCompList_styles_complete (st : WalkState) (cs : List DocComp) (x : DocComp)
    (s : String) (hmem : x ∈ preorderList cs) (hs : styleProp x = some s) (hne : s ≠ "") :
    s ∈ (walkCompList st cs).styles := by
  cases cs with
  | nil => exact absurd hmem (by simp [preorderList])
  | cons c cs =>
      rw [preorderList] at hmem
      rw [walkCompList]
      rcases List.mem_append.mp hmem with hx | hx
      · exact walkCompList_styles_mono _ cs s (walkComp_styles_complete st c x s hx hs hne)
      · exact walkCompList_styles_complete _ cs x s hx hs hne

end

mutual

/-- Every `Image` in the subtree of `c` has its relationship edge once the
walk of `c` completes. -/
theorem walkComp_rels_complete (st : WalkState) (c : DocComp) (x : DocComp)
    (i : String) (hmem : x ∈ preorder c) (hi : imageProp x = some i) :
    i ∈ (walkComp st c).imageRels := by
  cases c with
  | text t =>
      rw [preorder] at hmem
      rw [List.mem_singleton] at hmem
      subst hmem
      exact absurd hi (by simp [imageProp])
  | node sty img ch =>
      rw [preorder] at hmem
      rw [walkComp]
      rcases List.mem_cons.mp hmem with hx | hx
      · subst hx
        exact walkCompList_rels_mono _ ch i (walkStep_rels_complete st _ i hi)
      · exact walkCompList_rels_complete _ ch x i hx hi

/-- Every `Image` in a forest has its relationship edge once the walk of
the forest completes. -/
theorem walkCompList_rels_complete (st : WalkState) (cs : List DocComp) (x : DocComp)
    (i : String) (hmem : x ∈ preorderList cs) (hi : imageProp x = some i) :
    i ∈ (walkCompList st cs).imageRels := by
  cases cs with
  | nil => exact absurd hmem (by simp [preorderList])
  | cons c cs =>
      rw [preorderList] at hmem
      rw [walkCompList]
      rcases List.mem_append.mp hmem with hx | hx
      · exact walkCompList_rels_mono _ cs i (walkComp_rels_complete st c x i hx hi)
      · exact walkCompList_rels_complete _ cs x i hx hi

end

mutual

/-- The recursive `walk` of `Docx#toArchive` visits one component subtree
exactly as a fold of the per-node step over the depth-first pre-order
enumeration. -/
theorem walkComp_eq_foldl (st : WalkState) (c : DocComp) :
    walkComp st c = (preorder c).foldl walkStep st := by
  cases c with
  | text t => rw [walkComp, preorder]; rfl
  | node sty img ch =>
      rw [walkComp, preorder, List.foldl_cons]
      exact walkCompList_eq_foldl _ ch

/-- The walk of a forest is the fold of the per-node step over its
depth-first pre-order enumeration. -/
theorem walkCompList_eq_foldl (st : WalkState) (cs : List DocComp) :
    walkCompList st cs = (preorderList cs).foldl walkStep st := by
  cases cs with
  | nil => rfl
  | cons c cs =>
      rw [walkCompList, preorderList, List.foldl_append, ← walkComp_eq_foldl]
      exact walkCompList_eq_foldl _ cs

end

/-- C6: after `Docx#toArchive`, every part in the relationship closure
that is not itself a `Relationships` index file has an explicit
content-type override `(location, contentType)` registered. -/
theorem toArchive_content_type_overrides (d : DocxDoc) (p : PartInfo)
    (hmem : p ∈ (toArchive d).relatedParts) (hrel : p.isRelationships = false) :
    (p.location, p.contentType) ∈ (toArchive d).overrides := by
  simp only [toArchive] at hmem ⊢
  exact List.mem_append_right _
    (List.mem_map_of_mem _ (List.mem_filter.mpr ⟨hmem, by simp [hrel]⟩))

/-- Witness for C6: the main document part of an empty document gets its
override registered. -/
theorem toArchive_content_type_overrides_witness :
    ("word/document.xml", FileMime.mainDocument) ∈
      (toArchive ⟨[], [], [], []⟩).overrides :=
  toArchive_content_type_overrides ⟨[], [], [], []⟩
    ⟨"word/document.xml", FileMime.mainDocument, false⟩
    (by simp only [toArchive, walkCompList, getRelatedParts]; decide) rfl

/-- C7: `Docx#toArchive` runs its side-effecting pre-pass first, as one
depth-first pre-order walk (the walk equals the fold of the per-node step
over the pre-order enumeration), and only then serializes: every truthy
style prop discovered anywhere in the document children is present in the
serialized style registry, and every `Image` discovered has its
relationship edge in the serialized relationship graph. -/
theorem toArchive_prepass_first (d : DocxDoc) :
    (walkCompList { styles := d.styles, imageRels := d.imageRels } d.body =
      (preorderList d.body).foldl walkStep { styles := d.styles, imageRels := d.imageRels }) ∧
    (∀ c ∈ preorderList d.body, ∀ s, styleProp c = some s → s ≠ "" →
      s ∈ (toArchive d).serializedStyles) ∧
    (∀ c ∈ preorderList d.body, ∀ i, imageProp c = some i →
      i ∈ (toArchive d).serializedRels) := by
  refine ⟨walkCompList_eq_foldl _ _, ?_, ?_⟩
  · intro c hc s hs hne
    simp only [toArchive]
    exact walkCompList_styles_complete _ _ c s hc hs hne
  · intro c hc i hi
    simp only [toArchive]
    exact walkCompList_rels_complete _ _ c i hc hi

/-- Witness for C7: a document with one styled image node has the style
and the image edge in the serialized output. -/
theorem toArchive_prepass_first_witness :
    "Heading1" ∈
      (toArchive ⟨[DocComp.node (some "Heading1") (some "img1.png") []], [], [], []⟩).serializedStyles ∧
    "img1.png" ∈
      (toArchive ⟨[DocComp.node (some "Heading1") (some "img1.png") []], [], [], []⟩).serializedRels :=
  ⟨(toArchive_prepass_first _).2.1 (.node (some "Heading1") (some "img1.png") [])
      (by simp [preorderList, preorder]) "Heading1" rfl (by decide),
    (toArchive_prepass_first _).2.2 (.node (some "Heading1") (some "img1.png") [])
      (by simp [preorderList, preorder]) "img1.png" rfl⟩

/-- Pointwise description of writing a sequence of entries: the value at a
path is the last entry written for it, or the previous archive content. -/
theorem writeAll_apply (entries : List (String × String)) (a : Archive) (k : String) :
    Archive.writeAll entries a k =
      (entries.reverse.find? (fun e => e.1 == k)).elim (a k) (fun e => some e.2) := by
  induction entries generalizing a with
  | nil => rfl
  | cons e es ih =>
      have h1 : Archive.writeAll (e :: es) a =
          Archive.writeAll es (Archive.setEntry a e.1 e.2) := rfl
      rw [h1, ih, List.reverse_cons, List.find?_append]
      cases hf : es.reverse.find? (fun x => x.1 == k) with
      | some x => simp [hf]
      | none =>
          by_cases hk : e.1 = k
          · simp [hf, List.find?, hk, Archive.setEntry]
          · have hk' : ¬k = e.1 := fun hh => hk hh.symm
            have hb : (e.1 == k) = false := beq_eq_false_iff_ne.mpr hk
            simp [hf, List.find?, hb, hk', Archive.setEntry]

/-- Writing the same entry sequence twice gives the same archive as
writing it once. -/
theorem writeAll_idem (entries : List (String × String)) (a : Archive) :
    Archive.writeAll entries (Archive.writeAll entries a) = Archive.writeAll entries a := by
  funext k
  cases hf : entries.reverse.find? (fun e => e.1 == k) <;>
    simp [writeAll_apply, hf]

/-- When the written paths are pairwise distinct, every written entry is
retrievable from the resulting archive. -/
theorem writeAll_lookup_of_nodup (entries : List (String × String)) (a : Archive)
    (h : (entries.map Prod.fst).Nodup) (e : String × String) (he : e ∈ entries) :
    Archive.writeAll entries a e.1 = some e.2 := by
  rw [writeAll_apply]
  have hrev : e ∈ entries.reverse := List.mem_reverse.mpr he
  have hsome : (entries.reverse.find? (fun x => x.1 == e.1)).isSome := by
    rw [List.find?_isSome]
    exact ⟨e, hrev, by simp⟩
  obtain ⟨x, hx⟩ := Option.isSome_iff_exists.mp hsome
  have hxmem : x ∈ entries := List.mem_reverse.mp (List.mem_of_find?_eq_some hx)
  have hxk : x.1 = e.1 := by simpa using List.find?_some hx
  have hinj := List.inj_on_of_nodup_map h
  have hxe : x = e := hinj hxmem he hxk
  rw [hx, hxe]
  rfl

/-- C8 is false as stated: `XmlFile#addToArchive` never consults
`isEmpty()` — a part whose `isEmpty()` returns `true` is still written to
the archive. -/
theorem addToArchive_empty_counterexample :
    APart.isEmpty (.mk "word/empty.xml" "<x/>" true []) = true ∧
    APart.addToArchive (.mk "word/empty.xml" "<x/>" true []) Archive.empty
      "word/empty.xml" = some "<x/>" := by
  constructor
  · rfl
  · simp [APart.addToArchive, APart.writes, APart.getRelated, APart.getRelatedList,
      Archive.writeAll, Archive.setEntry, APart.location, APart.content]

/-- C8 (amended): when the locations in `getRelated()` are pairwise
distinct (the spec invariant that the flattened closure has no duplicate
part identity), `addToArchive` writes every member of `getRelated()`
exactly once — the issued write sequence contains one entry per member
and each member is retrievable afterwards — and the call is idempotent:
repeating it on the resulting archive changes nothing.  It does not,
however, skip members whose `isEmpty()` is true. -/
theorem addToArchive_spec (p : APart) (a : Archive)
    (h : (p.getRelated.map APart.location).Nodup) :
    (∀ q ∈ p.getRelated, p.addToArchive a q.location = some q.content) ∧
    (∀ q ∈ p.getRelated, p.writes.countP (fun e => decide (e = (q.location, q.content))) = 1) ∧
    p.addToArchive (p.addToArchive a) = p.addToArchive a := by
  have hkeys : p.writes.map Prod.fst = p.getRelated.map APart.location := by
    simp [APart.writes, List.map_map, Function.comp]
  refine ⟨?_, ?_, ?_⟩
  · intro q hq
    exact writeAll_lookup_of_nodup p.writes a (by rw [hkeys]; exact h)
      (q.location, q.content) (List.mem_map_of_mem _ hq)
  · intro q hq
    have hnd : p.writes.Nodup := List.Nodup.of_map _ (by rw [hkeys]; exact h)
    have hc := List.count_eq_one_of_mem hnd (List.mem_map_of_mem
      (fun q => (q.location, q.content)) hq)
    simpa [List.count_eq_countP] using hc
  · exact writeAll_idem _ _

/-- Witness for C8 (amended): a document part with one related styles part
has the styles part written at its location. -/
theorem addToArchive_spec_witness :
    APart.addToArchive
      (.mk "word/document.xml" "<doc/>" false [.mk "word/styles.xml" "<st/>" false []])
      Archive.empty "word/styles.xml" = some "<st/>" :=
  (addToArchive_spec
      (.mk "word/document.xml" "<doc/>" false [.mk "word/styles.xml" "<st/>" false []])
      Archive.empty
      (by simp [APart.getRelated, APart.getRelatedList, APart.location])).1
    (.mk "word/styles.xml" "<st/>" false [])
    (by simp [APart.getRelated, APart.getRelatedList])

/-- C9: `DotxTemplate#style` fails with the fatal `DXE010` error whenever
`init()` has not completed (the available style names are still null), and
fails with the fatal `DXE011` error — whose message lists all available
style names — whenever the requested name is not among them; in both
failure cases the template state, in particular its style map, is
returned unchanged. -/
theorem dotx_style_errors (t : DotxTemplate) (name : String) :
    (t.availableStyleNames = none →
      DotxTemplate.style t name = (.error dxe010, t)) ∧
    (∀ avail, t.availableStyleNames = some avail → name ∉ avail →
      DotxTemplate.style t name = (.error (dxe011 name avail), t)) := by
  constructor
  · intro h
    simp [DotxTemplate.style, h]
  · intro avail h hn
    simp [DotxTemplate.style, h, hn]

/-- Witness for C9: a template before `init`, and one whose style list
lacks the requested name. -/
theorem dotx_style_errors_witness :
    DotxTemplate.style ⟨none, []⟩ "Quote" = (.error dxe010, ⟨none, []⟩) ∧
    DotxTemplate.style ⟨some ["Normal", "Heading1"], []⟩ "Quote" =
      (.error (dxe011 "Quote" ["Normal", "Heading1"]), ⟨some ["Normal", "Heading1"], []⟩) :=
  ⟨(dotx_style_errors ⟨none, []⟩ "Quote").1 rfl,
    (dotx_style_errors ⟨some ["Normal", "Heading1"], []⟩ "Quote").2
      ["Normal", "Heading1"] rfl (by decide)⟩

/-- C10: the instance `contentType` getter of the `XmlFile` hierarchy is
determined entirely by the instance's concrete class — two instances of
the same class agree regardless of their constructor data — and in
particular a `FontTable` instance reports the fontTable MIME type while
`XmlFile` and `UnhandledXmlFile` (which declares no override) report the
`application/xml` default. -/
theorem contentType_determined_by_class (f g : XmlFileInst) :
    (f.cls = g.cls → f.contentType = g.contentType) ∧
    (f.cls = XmlClass.fontTable →
      f.contentType =
        "application/vnd.openxmlformats-officedocument.wordprocessingml.fontTable+xml") ∧
    (f.cls = XmlClass.unhandledXmlFile → f.contentType = "application/xml") ∧
    (f.cls = XmlClass.xmlFile → f.contentType = "application/xml") := by
  refine ⟨?_, ?_, ?_, ?_⟩ <;> intro h <;>
    simp [XmlFileInst.contentType, h, XmlClass.staticContentType,
      FileMime.fontTable, FileMime.xml]

/-- Witness for C10: two `FontTable` instances at different locations
share the fontTable MIME type. -/
theorem contentType_determined_by_class_witness :
    XmlFileInst.contentType ⟨XmlClass.fontTable, "word/fontTable.xml", "<a/>"⟩ =
      XmlFileInst.contentType ⟨XmlClass.fontTable, "other/path.xml", "<b/>"⟩ ∧
    XmlFileInst.contentType ⟨XmlClass.fontTable, "word/fontTable.xml", "<a/>"⟩ =
      "application/vnd.openxmlformats-officedocument.wordprocessingml.fontTable+xml" :=
  ⟨(contentType_determined_by_class ⟨XmlClass.fontTable, "word/fontTable.xml", "<a/>"⟩
      ⟨XmlClass.fontTable, "other/path.xml", "<b/>"⟩).1 rfl,
    (contentType_determined_by_class ⟨XmlClass.fontTable, "word/fontTable.xml", "<a/>"⟩
      ⟨XmlClass.fontTable, "other/path.xml", "<b/>"⟩).2.1 rfl⟩

end Docxml
